import Mathlib

set_option linter.unusedVariables false

/-!
Verification development for the `stainless-prep` exercise repository.

The repository's exercises are scaffolding: every exported function body is
`throw new Error('Not implemented')`.  We embed two layers:

* the stubs themselves (namespace `Stub`), faithful to the shipped bodies;
* the JSON-pointer / `$ref`-resolution subsystem of exercise 04, whose
  implementation is absent from the sources.  Those definitions are modelled
  from the design spec (pointer parser, pointer resolver, resolution engine,
  reference collector), following the spec's algorithm and the type
  declarations that do ship with the exercise (`ResolveOptions`,
  `ResolveResult`, the `$circular` marker).

The `RateLimitError` class of exercise 05 is real shipped code and is embedded
directly.
-/

/-- JSON-like values: the nested mappings/sequences the resolver walks.
Mappings are ordered association lists, mirroring JavaScript object entries. -/
inductive JValue where
  | str : String → JValue
  | num : Int → JValue
  | bool : Bool → JValue
  | null : JValue
  | arr : List JValue → JValue
  | obj : List (String × JValue) → JValue

/-- Model of JavaScript `String.prototype.startsWith` on character lists. -/
def startsWithChars : List Char → List Char → Bool
  | _, [] => true
  | [], _ :: _ => false
  | c :: cs, p :: ps => c = p && startsWithChars cs ps

/-- Model of JavaScript `s.startsWith(pre)`. -/
def strStartsWith (s pre : String) : Bool :=
  startsWithChars s.data pre.data

/-- Model of JavaScript `Object` property access used by the resolver:
first binding of a key in an ordered field list. -/
def fieldLookup : List (String × JValue) → String → Option JValue
  | [], _ => none
  | (k, v) :: rest, key => if k = key then some v else fieldLookup rest key

/-- Error taxonomy of the resolver subsystem (spec section 7). -/
inductive ResolveError where
  | invalidPointer (pointer : String)
  | pathNotFound (segment : String)
  | externalRef (pointer : String)
  | circularRef (pointer : String)
  | maxDepthExceeded
deriving DecidableEq, Repr

/-- Modelled from the spec: RFC 6901 unescaping of one pointer segment
(`~1` becomes `/`, `~0` becomes `~`), as a single left-to-right scan over
disjoint two-character patterns (spec section 4.1; the implementation of
`parseJsonPointer` is absent from the sources). -/
def unescapeSeg : List Char → List Char
  | [] => []
  | [c] => [c]
  | c1 :: c2 :: rest =>
    if c1 = '~' && c2 = '1' then '/' :: unescapeSeg rest
    else if c1 = '~' && c2 = '0' then '~' :: unescapeSeg rest
    else c1 :: unescapeSeg (c2 :: rest)

/-- Modelled from the spec: splitting the pointer body on `/`, as JavaScript
`"...".split('/')` does (an empty body yields one empty segment). -/
def splitSlash : List Char → List (List Char)
  | [] => [[]]
  | c :: rest =>
    if c = '/' then [] :: splitSlash rest
    else
      match splitSlash rest with
      | s :: ss => (c :: s) :: ss
      | [] => [[c]]

/-- Modelled from the spec: the pointer parser of exercise 04 (its body in the
sources throws `Not implemented`).  Input must begin with `#`; a bare `#`
denotes the root; the text after `#/` is split on `/` and each segment is
unescaped (spec section 4.1). -/
def parseJsonPointer (pointer : String) : Except ResolveError (List String) :=
  if strStartsWith pointer "#/" then
    .ok ((splitSlash (pointer.data.drop 2)).map (fun seg => String.mk (unescapeSeg seg)))
  else if strStartsWith pointer "#" then
    .ok []
  else
    .error (.invalidPointer pointer)

/-- Numeric value of a digit list (most significant first). -/
def digitsToNat (ds : List Char) : Nat :=
  ds.foldl (fun acc c => acc * 10 + (c.toNat - '0'.toNat)) 0

/-- Modelled from the spec: a sequence index must be a non-negative integer
segment (spec section 4.2), i.e. a non-empty all-digit string. -/
def parseIndex (s : String) : Option Nat :=
  if s.data ≠ [] && s.data.all Char.isDigit then some (digitsToNat s.data) else none

/-- Modelled from the spec: the pointer resolver of exercise 04 (its body in
the sources throws `Not implemented`).  Walks the segment list through the
document; a missing mapping key, a bad sequence index, or a non-indexable
value is a resolution failure (spec section 4.2). -/
def resolvePointer (document : JValue) (path : List String) : Except ResolveError JValue :=
  match path with
  | [] => .ok document
  | seg :: rest =>
    match document with
    | .obj fields =>
      match fieldLookup fields seg with
      | some v => resolvePointer v rest
      | none => .error (.pathNotFound seg)
    | .arr elems =>
      match parseIndex seg with
      | some i =>
        match elems.get? i with
        | some v => resolvePointer v rest
        | none => .error (.pathNotFound seg)
      | none => .error (.pathNotFound seg)
    | _ => .error (.pathNotFound seg)

/-- Circular-reference handling policies of `ResolveOptions` in exercise 04. -/
inductive CircularHandling where
  | error
  | mark
  | lazy
deriving DecidableEq, Repr

/-- The `ResolveOptions` record of exercise 04 (shipped type declaration). -/
structure ResolveOptions where
  circularHandling : CircularHandling
  maxDepth : Nat
  mutate : Bool
deriving DecidableEq, Repr

/-- The `ResolveResult` record of exercise 04 (shipped type declaration);
the JavaScript `Set`s are modelled as insertion-ordered duplicate-free lists. -/
structure ResolveResult where
  resolved : JValue
  resolvedRefs : List String
  circularRefs : List String

/-- Model of `Set.prototype.add`: append if not already present. -/
def insertS (s : List String) (x : String) : List String :=
  if x ∈ s then s else s ++ [x]

/-- Model of the shipped `isRefObject` test: an object node carrying a string
`$ref` field is a reference marker (regardless of sibling keys). -/
def isRefOf : JValue → Option String
  | .obj fields =>
    match fieldLookup fields "$ref" with
    | some (.str r) => some r
    | _ => none
  | _ => none

/-- Runs a resolution step over each element of a sequence in order,
threading the `resolvedRefs` and `circularRefs` accumulators. -/
def mapResolveList
    (f : JValue → List String → List String →
      Except ResolveError (JValue × List String × List String)) :
    List JValue → List String → List String →
      Except ResolveError (List JValue × List String × List String)
  | [], res, circ => .ok ([], res, circ)
  | v :: rest, res, circ =>
    match f v res circ with
    | .error e => .error e
    | .ok (v2, res2, circ2) =>
      match mapResolveList f rest res2 circ2 with
      | .error e => .error e
      | .ok (rest2, res3, circ3) => .ok (v2 :: rest2, res3, circ3)

/-- Runs a resolution step over each value of a mapping in order, keeping the
keys, threading the accumulators. -/
def mapResolveFields
    (f : JValue → List String → List String →
      Except ResolveError (JValue × List String × List String)) :
    List (String × JValue) → List String → List String →
      Except ResolveError (List (String × JValue) × List String × List String)
  | [], res, circ => .ok ([], res, circ)
  | (k, v) :: rest, res, circ =>
    match f v res circ with
    | .error e => .error e
    | .ok (v2, res2, circ2) =>
      match mapResolveFields f rest res2 circ2 with
      | .error e => .error e
      | .ok (rest2, res3, circ3) => .ok ((k, v2) :: rest2, res3, circ3)

/-- Modelled from the spec: the recursive reference-resolution engine of
exercise 04 (its body in the sources throws `Not implemented`).  Spec section
4.3: a reference marker is checked for externality, then against the active
`visited` chain (applying the circular policy, with the `$circular` marker key
of the shipped `ResolveOptions` declaration), otherwise dereferenced and its
target resolved recursively with the pointer pushed onto `visited`; sequences
and mappings are rebuilt from recursively resolved children; primitives pass
through; the fuel counter realises the `maxDepth` guard (each recursion level
consumes one unit). -/
def resolveRefsRec (doc : JValue) (opts : ResolveOptions) :
    Nat → List String → JValue → List String → List String →
      Except ResolveError (JValue × List String × List String)
  | 0, _, _, _, _ => .error .maxDepthExceeded
  | fuel + 1, visited, schema, resolvedRefs, circularRefs =>
    match isRefOf schema with
    | some refPath =>
      if strStartsWith refPath "#" then
        if refPath ∈ visited then
          let circ2 := insertS circularRefs refPath
          match opts.circularHandling with
          | .error => .error (.circularRef refPath)
          | .mark => .ok (.obj [("$circular", .str refPath)], resolvedRefs, circ2)
          | .lazy => .ok (.obj [("$ref", .str refPath)], resolvedRefs, circ2)
        else
          match parseJsonPointer refPath with
          | .error e => .error e
          | .ok path =>
            match resolvePointer doc path with
            | .error e => .error e
            | .ok target =>
              resolveRefsRec doc opts fuel (refPath :: visited) target
                (insertS resolvedRefs refPath) circularRefs
      else
        .error (.externalRef refPath)
    | none =>
      match schema with
      | .arr elems =>
        match mapResolveList (fun v res circ => resolveRefsRec doc opts fuel visited v res circ)
            elems resolvedRefs circularRefs with
        | .error e => .error e
        | .ok (elems2, res2, circ2) => .ok (.arr elems2, res2, circ2)
      | .obj fields =>
        match mapResolveFields (fun v res circ => resolveRefsRec doc opts fuel visited v res circ)
            fields resolvedRefs circularRefs with
        | .error e => .error e
        | .ok (fields2, res2, circ2) => .ok (.obj fields2, res2, circ2)
      | other => .ok (other, resolvedRefs, circularRefs)

/-- Modelled from the spec: the top-level `resolveRefs` entry point of
exercise 04 (its body in the sources throws `Not implemented`).  Starts a
fresh resolution context (spec section 3); depth `0` up to `maxDepth`
inclusive is allowed, hence `maxDepth + 1` units of fuel.  The `mutate`
option selects an in-place optimisation in the exercise and does not change
the computed result; the model is the non-mutating computation. -/
def resolveRefs (schema : JValue) (document : JValue) (opts : ResolveOptions) :
    Except ResolveError ResolveResult :=
  match resolveRefsRec document opts (opts.maxDepth + 1) [] schema [] [] with
  | .error e => .error e
  | .ok (v, res, circ) => .ok ⟨v, res, circ⟩

mutual
/-- Modelled from the spec: the reference collector of exercise 04 (its body
in the sources throws `Not implemented`): a pure recursive walk accumulating
every reference pointer string found, across mappings and sequences, into an
insertion-ordered duplicate-free list (spec section 4.5). -/
def collectRefsAux : JValue → List String → List String
  | .obj fields, acc => collectRefsFields fields acc
  | .arr elems, acc => collectRefsElems elems acc
  | _, acc => acc

/-- Walk of a mapping's entries: a string-valued `$ref` entry contributes its
pointer, and every value is walked recursively. -/
def collectRefsFields : List (String × JValue) → List String → List String
  | [], acc => acc
  | (k, v) :: rest, acc =>
    let acc2 :=
      if k = "$ref" then
        match v with
        | .str r => insertS acc r
        | _ => acc
      else acc
    collectRefsFields rest (collectRefsAux v acc2)

/-- Walk of a sequence's elements. -/
def collectRefsElems : List JValue → List String → List String
  | [], acc => acc
  | v :: rest, acc => collectRefsElems rest (collectRefsAux v acc)
end

/-- Top-level `collectRefs` model: walk with an empty accumulator. -/
def collectRefs (schema : JValue) : List String :=
  collectRefsAux schema []

/-- A reference pointer string `r` occurs somewhere in a schema: either as a
string-valued `$ref` entry of a mapping, or inside some mapping value or
sequence element. -/
inductive RefOccurs : String → JValue → Prop where
  | here (r : String) (fields : List (String × JValue))
      (h : ("$ref", JValue.str r) ∈ fields) : RefOccurs r (.obj fields)
  | inField (r : String) (k : String) (v : JValue) (fields : List (String × JValue))
      (h : (k, v) ∈ fields) (hv : RefOccurs r v) : RefOccurs r (.obj fields)
  | inElem (r : String) (v : JValue) (elems : List JValue)
      (h : v ∈ elems) (hv : RefOccurs r v) : RefOccurs r (.arr elems)

namespace Stub

/-- Shipped body of `parseJsonPointer` (exercise 04, line 395): the function
unconditionally throws `new Error('Not implemented')`. -/
def parseJsonPointer (pointer : String) : Except String (List String) :=
  .error "Not implemented"

/-- Shipped body of `resolvePointer` (exercise 04, line 409): unconditionally
throws `new Error('Not implemented')`. -/
def resolvePointer (document : JValue) (path : List String) : Except String JValue :=
  .error "Not implemented"

/-- Shipped body of `resolveRefs` (exercise 04, line 422): unconditionally
throws `new Error('Not implemented')`. -/
def resolveRefs (schema : JValue) (document : JValue) (options : ResolveOptions) :
    Except String ResolveResult :=
  .error "Not implemented"

/-- Shipped body of `resolveDocument` (exercise 04, line 439): unconditionally
throws `new Error('Not implemented')`. -/
def resolveDocument (document : JValue) (options : ResolveOptions) :
    Except String ResolveResult :=
  .error "Not implemented"

/-- Shipped body of `hasUnresolvedRefs` (exercise 04, line 451):
unconditionally throws `new Error('Not implemented')`. -/
def hasUnresolvedRefs (schema : JValue) : Except String Bool :=
  .error "Not implemented"

/-- Shipped body of `collectRefs` (exercise 04, line 460): unconditionally
throws `new Error('Not implemented')`. -/
def collectRefs (schema : JValue) : Except String (List String) :=
  .error "Not implemented"

end Stub

/-- Case-insensitive string comparison (ASCII lowering per character),
modelling the header-name normalisation of the WHATWG `Headers` map. -/
def lowerEq (a b : String) : Bool :=
  a.data.map Char.toLower == b.data.map Char.toLower

/-- Model of the WHATWG `Headers` map used by exercise 05: name-value pairs
with case-insensitive `get`, returning the first match. -/
def headersGet (headers : List (String × String)) (name : String) : Option String :=
  match headers.find? (fun kv => lowerEq kv.1 name) with
  | some kv => some kv.2
  | none => none

/-- Longest digit prefix consumed by JavaScript `parseInt`; `none` stands for
`NaN` when no digits are present. -/
def jsDigitsVal (cs : List Char) : Option Nat :=
  let ds := cs.takeWhile Char.isDigit
  if ds.isEmpty then none else some (digitsToNat ds)

/-- Model of JavaScript `parseInt(value, 10)`: skip leading whitespace, an
optional sign, then the longest digit prefix; `NaN` (`none`) if no digit
follows. -/
def jsParseInt (s : String) : Option Int :=
  match s.data.dropWhile Char.isWhitespace with
  | '-' :: rest => (jsDigitsVal rest).map (fun n => -(n : Int))
  | '+' :: rest => (jsDigitsVal rest).map (fun n => (n : Int))
  | rest => (jsDigitsVal rest).map (fun n => (n : Int))

/-- The `RateLimitError` class of exercise 05 (shipped, implemented code):
an `APIError` carrying `name`, `message`, `status`, optional `body` and
`headers`, plus the derived `retryAfter` field. -/
structure RateLimitError where
  name : String
  message : String
  status : Nat
  body : Option JValue
  headers : Option (List (String × String))
  retryAfter : Option Int

/-- The private `parseRetryAfter` method of `RateLimitError`:
`headers?.get('retry-after')`; `undefined` when the header is missing or the
value is falsy (the empty string); otherwise `parseInt(value, 10)`,
`undefined` on `NaN`, else `seconds * 1000`. -/
def parseRetryAfter (headers : Option (List (String × String))) : Option Int :=
  match headers with
  | none => none
  | some hs =>
    match headersGet hs "retry-after" with
    | none => none
    | some value =>
      if value = "" then none
      else
        match jsParseInt value with
        | none => none
        | some seconds => some (seconds * 1000)

/-- The `RateLimitError` constructor: `super(message, 429, body, headers)`,
then `this.name = 'RateLimitError'` and
`this.retryAfter = this.parseRetryAfter(headers)`. -/
def mkRateLimitError (message : String) (body : Option JValue)
    (headers : Option (List (String × String))) : RateLimitError :=
  ⟨"RateLimitError", message, 429, body, headers, parseRetryAfter headers⟩

/-- Re-escaping of one segment for the round-trip law of the spec's
testable properties: `~` becomes `~0` and `/` becomes `~1`. -/
def escapeSeg : List Char → List Char
  | [] => []
  | c :: rest =>
    if c = '~' then '~' :: '0' :: escapeSeg rest
    else if c = '/' then '~' :: '1' :: escapeSeg rest
    else c :: escapeSeg rest

/-- String-level re-escaping of one segment. -/
def escapeSegment (s : String) : String :=
  String.mk (escapeSeg s.data)

/-- Character-level joining of segments with `/`. -/
def joinSlash : List (List Char) → List Char
  | [] => []
  | [s] => s
  | s :: rest => s ++ '/' :: joinSlash rest

/-- Re-joining segments with `/` (the inverse direction of the split). -/
def joinSegs : List String → String
  | [] => ""
  | [s] => s
  | s :: rest => s ++ "/" ++ joinSegs rest

/-- Rebuilding a pointer string from parsed segments: re-escape each segment
and join with `/` under the `#/` prefix. -/
def rejoinPointer (segs : List String) : String :=
  "#/" ++ joinSegs (segs.map escapeSegment)

/-- A validly escaped pointer body: every `~` is followed by `0` or `1`
(RFC 6901 well-formedness, the precondition of the round-trip law). -/
def validTildes : List Char → Bool
  | [] => true
  | [c] => c ≠ '~'
  | c1 :: c2 :: rest =>
    if c1 = '~' then (c2 = '0' || c2 = '1') && validTildes rest
    else validTildes (c2 :: rest)

/-- Field access on a mapping value, `none` elsewhere. -/
def jget (v : JValue) (key : String) : Option JValue :=
  match v with
  | .obj fields => fieldLookup fields key
  | _ => none

/-- Iterated field access along a key path. -/
def jgetPath : JValue → List String → Option JValue
  | v, [] => some v
  | v, k :: rest =>
    match jget v k with
    | some v2 => jgetPath v2 rest
    | none => none

/-- Top-level keys of a mapping value. -/
def topKeys : JValue → List String
  | .obj fields => fields.map Prod.fst
  | _ => []

/-- The pointer of the self-referential `Node` schema in the mark-mode test. -/
def nodePtr : String := "#/components/schemas/Node"

/-- The self-referential `Node` schema of the mark-mode test: its `children`
items are a reference to `Node` itself. -/
def nodeSchema : JValue :=
  .obj [("type", .str "object"),
        ("properties", .obj
          [("value", .obj [("type", .str "string")]),
           ("children", .obj
             [("type", .str "array"),
              ("items", .obj [("$ref", .str nodePtr)])])])]

/-- The circular document of the mark-mode test, holding `Node` under
`components.schemas`. -/
def nodeDoc : JValue :=
  .obj [("openapi", .str "3.0.3"),
        ("info", .obj [("title", .str "Test"), ("version", .str "1.0.0")]),
        ("components", .obj [("schemas", .obj [("Node", nodeSchema)])])]

/-- One-level expansion of `Node` under the mark policy: the nested
`children.items` holds the `$circular` marker. -/
def nodeExpansion : JValue :=
  .obj [("type", .str "object"),
        ("properties", .obj
          [("value", .obj [("type", .str "string")]),
           ("children", .obj
             [("type", .str "array"),
              ("items", .obj [("$circular", .str nodePtr)])])])]

/-- Full mark-mode output for `Node`: the top-level `children.items` is the
one-level expansion `nodeExpansion`, not the bare marker. -/
def nodeMarkResult : JValue :=
  .obj [("type", .str "object"),
        ("properties", .obj
          [("value", .obj [("type", .str "string")]),
           ("children", .obj
             [("type", .str "array"),
              ("items", nodeExpansion)])])]

/-- The pointer of the directly self-referential schema `A` of the
error-mode test. -/
def selfPtr : String := "#/components/schemas/A"

/-- The directly self-referential schema `A` of the error-mode test. -/
def selfSchema : JValue :=
  .obj [("$ref", .str selfPtr)]

/-- The document of the error-mode test: `A` references itself. -/
def selfDoc : JValue :=
  .obj [("openapi", .str "3.0.3"),
        ("info", .obj [("title", .str "Test"), ("version", .str "1.0.0")]),
        ("components", .obj [("schemas", .obj [("A", selfSchema)])])]

/-- The document of the `resolvePointer` tests. -/
def pointerTestDoc : JValue :=
  .obj [("components", .obj
          [("schemas", .obj
            [("User", .obj
              [("type", .str "object"),
               ("properties", .obj [("id", .obj [("type", .str "string")])])])])]),
        ("paths", .obj
          [("/users", .obj [("get", .obj [("summary", .str "List users")])])])]

/-- The schema of the `collectRefs` composition test: `oneOf` holding two
distinct references. -/
def oneOfRefSchema : JValue :=
  .obj [("oneOf", .arr
          [.obj [("$ref", .str "#/components/schemas/A")],
           .obj [("$ref", .str "#/components/schemas/B")]])]

/-- The `retry-after` header value visible to the `RateLimitError`
constructor, if any. -/
def retryAfterHeaderValue : Option (List (String × String)) → Option String
  | none => none
  | some hs => headersGet hs "retry-after"

/-- If a string starts with `#/` it starts with `#`. -/
theorem startsWith_hash_of_hashSlash (p : String) (h : strStartsWith p "#/" = true) :
    strStartsWith p "#" = true := by
  have h' : startsWithChars p.data ('#' :: '/' :: []) = true := h
  show startsWithChars p.data ('#' :: []) = true
  cases hd : p.data with
  | nil => rw [hd] at h'; exact absurd h' (by simp [startsWithChars])
  | cons c cs =>
    rw [hd] at h'
    simp [startsWithChars] at h' ⊢
    exact h'.1

/-- C1: each of the six exported ref-resolver functions of exercise 04, as
shipped, throws `Not implemented` on every input and never returns a value. -/
theorem stubs_throw_not_implemented :
    (∀ pointer, Stub.parseJsonPointer pointer = .error "Not implemented") ∧
    (∀ document path, Stub.resolvePointer document path = .error "Not implemented") ∧
    (∀ schema document options,
      Stub.resolveRefs schema document options = .error "Not implemented") ∧
    (∀ document options, Stub.resolveDocument document options = .error "Not implemented") ∧
    (∀ schema, Stub.hasUnresolvedRefs schema = .error "Not implemented") ∧
    (∀ schema, Stub.collectRefs schema = .error "Not implemented") :=
  ⟨fun _ => rfl, fun _ _ => rfl, fun _ _ _ => rfl, fun _ _ => rfl, fun _ => rfl, fun _ => rfl⟩

/-- C7: `resolvePointer` returns `'b'` for index `1` of the sample sequence;
a path segment naming a key absent from the current mapping always fails with
a resolution error (never a silent `undefined`); in particular the sample
document has no `components.schemas.Missing`. -/
theorem resolvePointer_index_and_missing_key :
    resolvePointer (.obj [("items", .arr [.str "a", .str "b", .str "c"])]) ["items", "1"] =
      .ok (.str "b") ∧
    (∀ (fields : List (String × JValue)) (seg : String) (rest : List String),
      fieldLookup fields seg = none →
      resolvePointer (.obj fields) (seg :: rest) = .error (.pathNotFound seg)) ∧
    (∃ e, resolvePointer pointerTestDoc ["components", "schemas", "Missing"] = .error e) := by
  refine ⟨rfl, ?_, ⟨.pathNotFound "Missing", rfl⟩⟩
  intro fields seg rest h
  simp [resolvePointer, h]

/-- Witness for C7: the missing-key failure at a concrete mapping. -/
theorem resolvePointer_index_and_missing_key_witness :
    fieldLookup [("items", JValue.null)] "missing" = none ∧
    resolvePointer (.obj [("items", JValue.null)]) ["missing"] =
      .error (.pathNotFound "missing") :=
  ⟨rfl, resolvePointer_index_and_missing_key.2.1 [("items", JValue.null)] "missing" [] rfl⟩

/-- C8: `parseJsonPointer '#'` is the empty segment list, and every input not
beginning with `#` fails, in particular `not-a-pointer` and `/no-hash`. -/
theorem parseJsonPointer_root_and_invalid :
    parseJsonPointer "#" = .ok [] ∧
    (∀ p : String, strStartsWith p "#" = false → ∃ e, parseJsonPointer p = .error e) ∧
    (∃ e, parseJsonPointer "not-a-pointer" = .error e) ∧
    (∃ e, parseJsonPointer "/no-hash" = .error e) := by
  refine ⟨rfl, ?_, ⟨.invalidPointer "not-a-pointer", rfl⟩, ⟨.invalidPointer "/no-hash", rfl⟩⟩
  intro p hp
  have h2 : strStartsWith p "#/" = false := by
    cases h : strStartsWith p "#/" with
    | false => rfl
    | true => exact absurd (startsWith_hash_of_hashSlash p h) (by simp [hp])
  exact ⟨.invalidPointer p, by simp [parseJsonPointer, hp, h2]⟩

/-- Witness for C8: the failure clause at the concrete input of the test. -/
theorem parseJsonPointer_root_and_invalid_witness :
    strStartsWith "not-a-pointer" "#" = false ∧
    ∃ e, parseJsonPointer "not-a-pointer" = .error e :=
  ⟨rfl, parseJsonPointer_root_and_invalid.2.1 "not-a-pointer" rfl⟩

/-- C10: `RateLimitError` always carries status `429` and name
`RateLimitError`; `retryAfter` is `1000` times the base-10 integer parse of
the `retry-after` header when that header is present and parses, and is
absent when the header is missing or does not parse as an integer. -/
theorem rateLimitError_fields (message : String) (body : Option JValue)
    (headers : Option (List (String × String))) :
    (mkRateLimitError message body headers).status = 429 ∧
    (mkRateLimitError message body headers).name = "RateLimitError" ∧
    (retryAfterHeaderValue headers = none →
      (mkRateLimitError message body headers).retryAfter = none) ∧
    (∀ v, retryAfterHeaderValue headers = some v → jsParseInt v = none →
      (mkRateLimitError message body headers).retryAfter = none) ∧
    (∀ v n, retryAfterHeaderValue headers = some v → jsParseInt v = some n →
      (mkRateLimitError message body headers).retryAfter = some (n * 1000)) := by
  refine ⟨rfl, rfl, ?_, ?_, ?_⟩
  · intro h
    cases headers with
    | none => rfl
    | some hs =>
      simp only [retryAfterHeaderValue] at h
      simp [mkRateLimitError, parseRetryAfter, h]
  · intro v hv hparse
    cases headers with
    | none => rfl
    | some hs =>
      simp only [retryAfterHeaderValue] at hv
      by_cases hv' : v = ""
      · simp [mkRateLimitError, parseRetryAfter, hv, hv']
      · simp [mkRateLimitError, parseRetryAfter, hv, hv', hparse]
  · intro v n hv hparse
    cases headers with
    | none => simp [retryAfterHeaderValue] at hv
    | some hs =>
      simp only [retryAfterHeaderValue] at hv
      have hv' : v ≠ "" := by
        intro h
        subst h
        simp [jsParseInt, jsDigitsVal] at hparse
      simp [mkRateLimitError, parseRetryAfter, hv, hv', hparse]

/-- Witness for C10: a `retry-after: 120` header yields `retryAfter` of
`120000` milliseconds. -/
theorem rateLimitError_fields_witness :
    (mkRateLimitError "Rate limited" none (some [("retry-after", "120")])).retryAfter =
      some 120000 ∧
    (mkRateLimitError "Rate limited" none (some [("retry-after", "120")])).status = 429 := by
  have h := rateLimitError_fields "Rate limited" none (some [("retry-after", "120")])
  exact ⟨h.2.2.2.2 "120" 120 rfl rfl, h.1⟩

/-- C5: a reference whose pointer string does not begin with `#` makes
`resolveRefs` fail with an external-reference error naming that pointer, for
every document and every option record (hence every circular policy). -/
theorem resolveRefs_external_ref (r : String) (hr : strStartsWith r "#" = false) :
    ∀ (fields : List (String × JValue)) (doc : JValue) (opts : ResolveOptions),
      fieldLookup fields "$ref" = some (.str r) →
      resolveRefs (.obj fields) doc opts = .error (.externalRef r) := by
  intro fields doc opts hlookup
  simp [resolveRefs, resolveRefsRec, isRefOf, hlookup, hr]

/-- Witness for C5: the external reference of the test, under the mark
policy. -/
theorem resolveRefs_external_ref_witness :
    strStartsWith "./other.yaml#/schemas/Foo" "#" = false ∧
    resolveRefs (.obj [("$ref", .str "./other.yaml#/schemas/Foo")]) nodeDoc
      ⟨.mark, 100, false⟩ = .error (.externalRef "./other.yaml#/schemas/Foo") :=
  ⟨rfl, resolveRefs_external_ref "./other.yaml#/schemas/Foo" rfl
    [("$ref", .str "./other.yaml#/schemas/Foo")] nodeDoc ⟨.mark, 100, false⟩ rfl⟩

/-- C3: a directly self-referential schema (a reference marker whose pointer
resolves to that same marker) raises a circular-reference error under the
`error` policy, and under the `lazy` policy resolution succeeds with the
reference marker preserved verbatim, for every positive depth bound. -/
theorem resolveRefs_self_reference (p : String) (doc : JValue) (segs : List String)
    (hp : strStartsWith p "#" = true)
    (hparse : parseJsonPointer p = .ok segs)
    (htarget : resolvePointer doc segs = .ok (.obj [("$ref", .str p)])) :
    (∀ d m, resolveRefs (.obj [("$ref", .str p)]) doc ⟨.error, d + 1, m⟩ =
      .error (.circularRef p)) ∧
    (∀ d m, ∃ res, resolveRefs (.obj [("$ref", .str p)]) doc ⟨.lazy, d + 1, m⟩ = .ok res ∧
      res.resolved = .obj [("$ref", .str p)]) := by
  constructor
  · intro d m
    simp [resolveRefs, resolveRefsRec, isRefOf, fieldLookup, hp, hparse, htarget, insertS]
  · intro d m
    refine ⟨⟨.obj [("$ref", .str p)], [p], [p]⟩, ?_, rfl⟩
    simp [resolveRefs, resolveRefsRec, isRefOf, fieldLookup, hp, hparse, htarget, insertS]

/-- Witness for C3: the self-referential schema `A` of the tests. -/
theorem resolveRefs_self_reference_witness :
    resolveRefs selfSchema selfDoc ⟨.error, 100, false⟩ = .error (.circularRef selfPtr) ∧
    ∃ res, resolveRefs selfSchema selfDoc ⟨.lazy, 100, false⟩ = .ok res ∧
      res.resolved = selfSchema := by
  have h := resolveRefs_self_reference selfPtr selfDoc ["components", "schemas", "A"]
    rfl rfl rfl
  exact ⟨h.1 99 false, h.2 99 false⟩

/-- Evaluation of the engine on the self-referential `Node` schema under the
mark policy, for any document that resolves the `Node` pointer to that
schema: the output replaces the top-level `children.items` reference by the
one-level expansion of `Node`, inside which the nested `children.items` is
the `$circular` marker. -/
theorem resolveRefsRec_nodeSchema (doc : JValue) (f d : Nat) (m : Bool)
    (hres : resolvePointer doc ["components", "schemas", "Node"] = .ok nodeSchema) :
    resolveRefsRec doc ⟨.mark, d, m⟩ (f + 8) [] nodeSchema [] [] =
      .ok (nodeMarkResult, [nodePtr], [nodePtr]) := by
  have hparse : parseJsonPointer nodePtr = .ok ["components", "schemas", "Node"] := rfl
  have hsw : strStartsWith nodePtr "#" = true := rfl
  simp [resolveRefsRec, mapResolveFields, mapResolveList, isRefOf, fieldLookup, nodeSchema,
    nodeMarkResult, nodeExpansion, insertS, hres, hparse, hsw]

/-- C2 counterexample: on the circular `Node` document of the tests, mark-mode
resolution succeeds, but the output's `children.items` is the one-level
expansion of `Node`, which is not the node `\x7b circular: pointer \x7d`
stated by the claim (the marker key is `$circular`, and the marker sits one
level deeper, at the expansion's own `children.items`). -/
theorem resolveRefs_mark_counterexample :
    resolveRefs nodeSchema nodeDoc ⟨.mark, 100, false⟩ =
      .ok ⟨nodeMarkResult, [nodePtr], [nodePtr]⟩ ∧
    jgetPath nodeMarkResult ["properties", "children", "items"] = some nodeExpansion ∧
    nodeExpansion ≠ .obj [("circular", .str nodePtr)] := by
  refine ⟨rfl, rfl, fun h => ?_⟩
  have h2 := congrArg topKeys h
  simp [topKeys, nodeExpansion] at h2

/-- C2 amended: under the mark policy, for every document in which the `Node`
pointer resolves to the self-referential `Node` schema, `resolveRefs`
succeeds; the output's `children.items` is the one-level expansion of `Node`
whose own `children.items` is the synthetic marker
`\x7b $circular: '#/components/schemas/Node' \x7d`, and `circularRefs`
contains `#/components/schemas/Node`. -/
theorem resolveRefs_mark_self_reference (doc : JValue)
    (hres : resolvePointer doc ["components", "schemas", "Node"] = .ok nodeSchema) :
    ∃ res, resolveRefs nodeSchema doc ⟨.mark, 100, false⟩ = .ok res ∧
      res.resolved = nodeMarkResult ∧
      jgetPath res.resolved ["properties", "children", "items"] = some nodeExpansion ∧
      jgetPath res.resolved
        ["properties", "children", "items", "properties", "children", "items"] =
        some (.obj [("$circular", .str nodePtr)]) ∧
      nodePtr ∈ res.circularRefs := by
  have key := resolveRefsRec_nodeSchema doc 93 100 false hres
  refine ⟨⟨nodeMarkResult, [nodePtr], [nodePtr]⟩, ?_, rfl, rfl, rfl, by simp⟩
  simp [resolveRefs, key]

/-- Witness for C2 amended: the concrete circular document of the tests. -/
theorem resolveRefs_mark_self_reference_witness :
    resolvePointer nodeDoc ["components", "schemas", "Node"] = .ok nodeSchema ∧
    ∃ res, resolveRefs nodeSchema nodeDoc ⟨.mark, 100, false⟩ = .ok res ∧
      res.resolved = nodeMarkResult ∧
      nodePtr ∈ res.circularRefs := by
  refine ⟨rfl, ?_⟩
  obtain ⟨res, h1, h2, _, _, h5⟩ := resolveRefs_mark_self_reference nodeDoc rfl
  exact ⟨res, h1, h2, h5⟩

/-- `splitSlash` never returns an empty list of pieces. -/
theorem splitSlash_ne_nil (l : List Char) : splitSlash l ≠ [] := by
  induction l with
  | nil => simp [splitSlash]
  | cons c rest ih =>
    by_cases hc : c = '/'
    · simp [splitSlash, hc]
    · simp only [splitSlash, hc, if_false]
      cases h : splitSlash rest with
      | nil => exact absurd h ih
      | cons s ss => simp

/-- Joining after prepending characters to the first piece. -/
theorem joinSlash_cons_append (a s : List Char) (ss : List (List Char)) :
    joinSlash ((a ++ s) :: ss) = a ++ joinSlash (s :: ss) := by
  cases ss with
  | nil => simp [joinSlash]
  | cons s2 rest => simp [joinSlash]

/-- Unescaping walks past a character that is not a tilde. -/
theorem unescapeSeg_cons (c : Char) (s : List Char) (hc : c ≠ '~') :
    unescapeSeg (c :: s) = c :: unescapeSeg s := by
  cases s with
  | nil => simp [unescapeSeg]
  | cons d s2 => simp [unescapeSeg, hc]

/-- One-step unfolding of `splitSlash` on a cons cell. -/
theorem splitSlash_cons (c : Char) (rest : List Char) :
    splitSlash (c :: rest) =
      if c = '/' then [] :: splitSlash rest
      else
        match splitSlash rest with
        | s :: ss => (c :: s) :: ss
        | [] => [[c]] := rfl

/-- Character-level round trip: on a validly escaped body, splitting on `/`,
unescaping each piece, re-escaping and re-joining reproduces the body. -/
theorem roundtrip_chars (l : List Char) (hv : validTildes l = true) :
    joinSlash ((splitSlash l).map (fun s => escapeSeg (unescapeSeg s))) = l := by
  induction l using validTildes.induct with
  | case1 =>
    simp [splitSlash, joinSlash, unescapeSeg, escapeSeg]
  | case2 c =>
    simp only [validTildes, decide_eq_true_eq] at hv
    by_cases hc : c = '/'
    · subst hc
      simp [splitSlash, joinSlash, unescapeSeg, escapeSeg]
    · simp [splitSlash, joinSlash, unescapeSeg, escapeSeg, hc, hv]
  | case3 c2 rest ih =>
    simp only [validTildes, if_pos, Bool.and_eq_true, Bool.or_eq_true,
      decide_eq_true_eq] at hv
    obtain ⟨hc2, hrest⟩ := hv
    obtain ⟨s', ss', hsplit⟩ :
        ∃ s' ss', splitSlash rest = s' :: ss' := by
      cases h : splitSlash rest with
      | nil => exact absurd h (splitSlash_ne_nil rest)
      | cons s ss => exact ⟨s, ss, rfl⟩
    have hc2slash : ¬c2 = '/' := by
      rcases hc2 with h | h <;> subst h <;> decide
    have hsplitmid : splitSlash (c2 :: rest) = (c2 :: s') :: ss' := by
      rw [splitSlash_cons, if_neg hc2slash, hsplit]
    have hsplit2 : splitSlash ('~' :: c2 :: rest) = ('~' :: c2 :: s') :: ss' := by
      rw [splitSlash_cons, if_neg (by decide : ¬('~' : Char) = '/'), hsplitmid]
    have hesc : escapeSeg (unescapeSeg ('~' :: c2 :: s')) =
        '~' :: c2 :: escapeSeg (unescapeSeg s') := by
      rcases hc2 with h | h <;> subst h <;> simp [unescapeSeg, escapeSeg]
    rw [hsplit2]
    simp only [List.map_cons, hesc]
    have hjoin := joinSlash_cons_append ['~', c2] (escapeSeg (unescapeSeg s'))
      (ss'.map (fun s => escapeSeg (unescapeSeg s)))
    simp only [List.cons_append, List.nil_append] at hjoin
    rw [hjoin]
    have ihrest := ih hrest
    rw [hsplit] at ihrest
    simp only [List.map_cons] at ihrest
    rw [ihrest]
  | case4 c1 c2 rest h1 ih =>
    have hvtail : validTildes (c2 :: rest) = true := by
      simpa [validTildes, h1] using hv
    have ihtail := ih hvtail
    obtain ⟨s', ss', hsplit⟩ :
        ∃ s' ss', splitSlash (c2 :: rest) = s' :: ss' := by
      cases h : splitSlash (c2 :: rest) with
      | nil => exact absurd h (splitSlash_ne_nil (c2 :: rest))
      | cons s ss => exact ⟨s, ss, rfl⟩
    rw [hsplit] at ihtail
    simp only [List.map_cons] at ihtail
    by_cases hc1 : c1 = '/'
    · subst hc1
      have hsplit2 : splitSlash ('/' :: c2 :: rest) = [] :: (s' :: ss') := by
        rw [splitSlash_cons, if_pos rfl, hsplit]
      rw [hsplit2]
      simp only [List.map_cons]
      have hnilseg : escapeSeg (unescapeSeg []) = [] := by simp [unescapeSeg, escapeSeg]
      rw [hnilseg]
      have hjoin : joinSlash
          ([] :: escapeSeg (unescapeSeg s') :: ss'.map (fun s => escapeSeg (unescapeSeg s))) =
          '/' :: joinSlash
            (escapeSeg (unescapeSeg s') :: ss'.map (fun s => escapeSeg (unescapeSeg s))) := by
        simp [joinSlash]
      rw [hjoin, ihtail]
    · have hsplit2 : splitSlash (c1 :: c2 :: rest) = (c1 :: s') :: ss' := by
        rw [splitSlash_cons, if_neg hc1, hsplit]
      have hesc : escapeSeg (unescapeSeg (c1 :: s')) = c1 :: escapeSeg (unescapeSeg s') := by
        rw [unescapeSeg_cons c1 s' h1]
        simp [escapeSeg, h1, hc1]
      rw [hsplit2]
      simp only [List.map_cons, hesc]
      have hjoin := joinSlash_cons_append [c1] (escapeSeg (unescapeSeg s'))
        (ss'.map (fun s => escapeSeg (unescapeSeg s)))
      simp only [List.cons_append, List.nil_append] at hjoin
      rw [hjoin, ihtail]

/-- Two strings with the same character data are equal. -/
theorem strExt (a b : String) (h : a.data = b.data) : a = b := by
  cases a
  cases b
  exact congrArg String.mk h

/-- Character data of an appended string. -/
theorem strAppend_data (a b : String) : (a ++ b).data = a.data ++ b.data := rfl

/-- Character data of re-joined segments. -/
theorem joinSegs_data (ss : List String) :
    (joinSegs ss).data = joinSlash (ss.map String.data) := by
  induction ss with
  | nil => rfl
  | cons s rest ih =>
    cases rest with
    | nil => rfl
    | cons s2 rest2 =>
      show (s ++ "/" ++ joinSegs (s2 :: rest2)).data =
        s.data ++ '/' :: joinSlash ((s2 :: rest2).map String.data)
      rw [strAppend_data, strAppend_data, ih]
      have hslash : ("/" : String).data = ['/'] := rfl
      rw [hslash, List.append_assoc]
      rfl

/-- A two-character prefix determines the head of the character data. -/
theorem startsWithChars_two (l : List Char) (c1 c2 : Char)
    (h : startsWithChars l (c1 :: c2 :: []) = true) : l = c1 :: c2 :: l.drop 2 := by
  match l with
  | [] => exact absurd h (by simp [startsWithChars])
  | [a] => exact absurd h (by simp [startsWithChars])
  | a :: b :: t =>
    simp only [startsWithChars, Bool.and_eq_true, decide_eq_true_eq] at h
    obtain ⟨h1, h2, _⟩ := h
    subst h1
    subst h2
    rfl

/-- C4: for every valid pointer string beginning with `#/` — one whose body
escapes every `~` as `~0` or `~1` — re-escaping the parsed segments and
re-joining them with `/` under `#/` reproduces the pointer (round-trip law);
in particular `#/a~1b/c~0d` parses to `['a/b', 'c~d']`. -/
theorem parseJsonPointer_roundtrip :
    (∀ p : String, strStartsWith p "#/" = true → validTildes (p.data.drop 2) = true →
      ∃ segs, parseJsonPointer p = .ok segs ∧ rejoinPointer segs = p) ∧
    parseJsonPointer "#/a~1b/c~0d" = .ok ["a/b", "c~d"] := by
  refine ⟨?_, rfl⟩
  intro p hp hv
  refine ⟨(splitSlash (p.data.drop 2)).map (fun seg => String.mk (unescapeSeg seg)),
    by simp [parseJsonPointer, hp], ?_⟩
  apply strExt
  have hdata : p.data = '#' :: '/' :: p.data.drop 2 :=
    startsWithChars_two p.data '#' '/' hp
  show (("#/" : String) ++ joinSegs (((splitSlash (p.data.drop 2)).map
      (fun seg => String.mk (unescapeSeg seg))).map escapeSegment)).data = p.data
  rw [strAppend_data, joinSegs_data]
  have hpre : (("#/" : String)).data = ['#', '/'] := rfl
  rw [hpre]
  have hmaps : ((((splitSlash (p.data.drop 2)).map
      (fun seg => String.mk (unescapeSeg seg))).map escapeSegment).map String.data) =
      (splitSlash (p.data.drop 2)).map (fun s => escapeSeg (unescapeSeg s)) := by
    simp only [List.map_map]
    rfl
  rw [hmaps, roundtrip_chars _ hv]
  exact hdata.symm

/-- Witness for C4: the concrete escaped pointer of the tests. -/
theorem parseJsonPointer_roundtrip_witness :
    strStartsWith "#/a~1b/c~0d" "#/" = true ∧
    validTildes (("#/a~1b/c~0d" : String).data.drop 2) = true ∧
    ∃ segs, parseJsonPointer "#/a~1b/c~0d" = .ok segs ∧
      rejoinPointer segs = "#/a~1b/c~0d" :=
  ⟨rfl, rfl, parseJsonPointer_roundtrip.1 "#/a~1b/c~0d" rfl rfl⟩

/-- Membership after a set insertion. -/
theorem insertS_mem (s : List String) (y x : String) :
    x ∈ insertS s y ↔ x ∈ s ∨ x = y := by
  by_cases h : y ∈ s
  · simp only [insertS, if_pos h]
    constructor
    · exact fun hx => Or.inl hx
    · rintro (hx | rfl)
      · exact hx
      · exact h
  · simp [insertS, h]

/-- Set insertion preserves freedom from duplicates. -/
theorem insertS_nodup (s : List String) (y : String) (h : s.Nodup) :
    (insertS s y).Nodup := by
  by_cases hy : y ∈ s
  · simpa [insertS, hy] using h
  · simp [insertS, hy, List.nodup_append, h]

/-- Occurrence of a reference in a mapping with a leading entry. -/
theorem refOccurs_obj_cons (x k : String) (v : JValue) (rest : List (String × JValue)) :
    RefOccurs x (.obj ((k, v) :: rest)) ↔
      (k = "$ref" ∧ v = .str x) ∨ RefOccurs x v ∨ RefOccurs x (.obj rest) := by
  constructor
  · intro h
    cases h with
    | here flds hmem =>
      rcases List.mem_cons.mp hmem with heq | hmem2
      · obtain ⟨hk, hvv⟩ := Prod.mk.inj heq
        exact Or.inl ⟨hk.symm, hvv.symm⟩
      · exact Or.inr (Or.inr (.here x rest hmem2))
    | inField k2 v2 flds hmem hv =>
      rcases List.mem_cons.mp hmem with heq | hmem2
      · obtain ⟨hk, hvv⟩ := Prod.mk.inj heq
        exact Or.inr (Or.inl (hvv ▸ hv))
      · exact Or.inr (Or.inr (.inField x k2 v2 rest hmem2 hv))
  · rintro (⟨rfl, rfl⟩ | hv | hrest)
    · exact .here x _ (List.mem_cons_self _ _)
    · exact .inField x k v _ (List.mem_cons_self _ _) hv
    · cases hrest with
      | here flds hmem => exact .here x _ (List.mem_cons_of_mem _ hmem)
      | inField k2 v2 flds hmem hv2 =>
        exact .inField x k2 v2 _ (List.mem_cons_of_mem _ hmem) hv2

/-- Occurrence of a reference in a sequence with a leading element. -/
theorem refOccurs_arr_cons (x : String) (v : JValue) (rest : List JValue) :
    RefOccurs x (.arr (v :: rest)) ↔ RefOccurs x v ∨ RefOccurs x (.arr rest) := by
  constructor
  · intro h
    cases h with
    | inElem v2 elems hmem hv =>
      rcases List.mem_cons.mp hmem with heq | hmem2
      · exact Or.inl (heq ▸ hv)
      · exact Or.inr (.inElem x v2 rest hmem2 hv)
  · rintro (hv | hrest)
    · exact .inElem x v _ (List.mem_cons_self _ _) hv
    · cases hrest with
      | inElem v2 elems hmem hv2 => exact .inElem x v2 _ (List.mem_cons_of_mem _ hmem) hv2

/-- No reference occurs in an empty mapping. -/
theorem refOccurs_obj_nil (x : String) : ¬ RefOccurs x (.obj []) := by
  intro h
  cases h with
  | here flds hmem => cases hmem
  | inField k v flds hmem hv => cases hmem

/-- No reference occurs in an empty sequence. -/
theorem refOccurs_arr_nil (x : String) : ¬ RefOccurs x (.arr []) := by
  intro h
  cases h with
  | inElem v elems hmem hv => cases hmem

/-- No reference occurs in a string value. -/
theorem refOccurs_str (x s : String) : ¬ RefOccurs x (.str s) := fun h => nomatch h

/-- No reference occurs in a number value. -/
theorem refOccurs_num (x : String) (n : Int) : ¬ RefOccurs x (.num n) := fun h => nomatch h

/-- No reference occurs in a boolean value. -/
theorem refOccurs_bool (x : String) (b : Bool) : ¬ RefOccurs x (.bool b) := fun h => nomatch h

/-- No reference occurs in the null value. -/
theorem refOccurs_null (x : String) : ¬ RefOccurs x .null := fun h => nomatch h

mutual
/-- Membership in the reference collector's walk of one value: exactly the
accumulator plus the references occurring in the value. -/
theorem collectRefsAux_mem : ∀ (v : JValue) (acc : List String) (x : String),
    x ∈ collectRefsAux v acc ↔ x ∈ acc ∨ RefOccurs x v
  | .obj fields, acc, x => by
    rw [show collectRefsAux (.obj fields) acc = collectRefsFields fields acc from rfl]
    exact collectRefsFields_mem fields acc x
  | .arr elems, acc, x => by
    rw [show collectRefsAux (.arr elems) acc = collectRefsElems elems acc from rfl]
    exact collectRefsElems_mem elems acc x
  | .str s, acc, x => by
    rw [show collectRefsAux (.str s) acc = acc from rfl]
    simp [refOccurs_str]
  | .num n, acc, x => by
    rw [show collectRefsAux (.num n) acc = acc from rfl]
    simp [refOccurs_num]
  | .bool b, acc, x => by
    rw [show collectRefsAux (.bool b) acc = acc from rfl]
    simp [refOccurs_bool]
  | .null, acc, x => by
    rw [show collectRefsAux .null acc = acc from rfl]
    simp [refOccurs_null]

/-- Membership in the reference collector's walk of a sequence. -/
theorem collectRefsElems_mem : ∀ (elems : List JValue) (acc : List String) (x : String),
    x ∈ collectRefsElems elems acc ↔ x ∈ acc ∨ RefOccurs x (.arr elems)
  | [], acc, x => by
    rw [show collectRefsElems [] acc = acc from rfl]
    simp [refOccurs_arr_nil]
  | v :: rest, acc, x => by
    rw [show collectRefsElems (v :: rest) acc =
        collectRefsElems rest (collectRefsAux v acc) from rfl]
    rw [collectRefsElems_mem rest (collectRefsAux v acc) x, collectRefsAux_mem v acc x,
      refOccurs_arr_cons]
    tauto

/-- Membership in the reference collector's walk of a mapping's entries. -/
theorem collectRefsFields_mem :
    ∀ (fields : List (String × JValue)) (acc : List String) (x : String),
      x ∈ collectRefsFields fields acc ↔ x ∈ acc ∨ RefOccurs x (.obj fields)
  | [], acc, x => by
    rw [show collectRefsFields [] acc = acc from rfl]
    simp [refOccurs_obj_nil]
  | (k, v) :: rest, acc, x => by
    rw [refOccurs_obj_cons]
    by_cases hk : k = "$ref"
    · subst hk
      cases v with
      | str r =>
        rw [show collectRefsFields (("$ref", JValue.str r) :: rest) acc =
            collectRefsFields rest (collectRefsAux (JValue.str r) (insertS acc r)) from rfl]
        rw [collectRefsFields_mem rest (collectRefsAux (JValue.str r) (insertS acc r)) x]
        rw [show collectRefsAux (JValue.str r) (insertS acc r) = insertS acc r from rfl]
        rw [insertS_mem]
        simp only [JValue.str.injEq, true_and, refOccurs_str]
        constructor
        · rintro ((hx | rfl) | hrest)
          · exact Or.inl hx
          · exact Or.inr (Or.inl rfl)
          · exact Or.inr (Or.inr (Or.inr hrest))
        · rintro (hx | (heq | hocc | hrest))
          · exact Or.inl (Or.inl hx)
          · exact Or.inl (Or.inr heq.symm)
          · exact hocc.elim
          · exact Or.inr hrest
      | num n =>
        rw [show collectRefsFields (("$ref", JValue.num n) :: rest) acc =
            collectRefsFields rest (collectRefsAux (JValue.num n) acc) from rfl]
        rw [collectRefsFields_mem rest (collectRefsAux (JValue.num n) acc) x]
        rw [show collectRefsAux (JValue.num n) acc = acc from rfl]
        simp [refOccurs_num]
      | bool b =>
        rw [show collectRefsFields (("$ref", JValue.bool b) :: rest) acc =
            collectRefsFields rest (collectRefsAux (JValue.bool b) acc) from rfl]
        rw [collectRefsFields_mem rest (collectRefsAux (JValue.bool b) acc) x]
        rw [show collectRefsAux (JValue.bool b) acc = acc from rfl]
        simp [refOccurs_bool]
      | null =>
        rw [show collectRefsFields (("$ref", JValue.null) :: rest) acc =
            collectRefsFields rest (collectRefsAux JValue.null acc) from rfl]
        rw [collectRefsFields_mem rest (collectRefsAux JValue.null acc) x]
        rw [show collectRefsAux JValue.null acc = acc from rfl]
        simp [refOccurs_null]
      | arr elems =>
        rw [show collectRefsFields (("$ref", JValue.arr elems) :: rest) acc =
            collectRefsFields rest (collectRefsAux (JValue.arr elems) acc) from rfl]
        rw [collectRefsFields_mem rest (collectRefsAux (JValue.arr elems) acc) x]
        rw [collectRefsAux_mem (JValue.arr elems) acc x]
        constructor
        · rintro ((hx | hocc) | hrest)
          · exact Or.inl hx
          · exact Or.inr (Or.inr (Or.inl hocc))
          · exact Or.inr (Or.inr (Or.inr hrest))
        · rintro (hx | (⟨_, heq⟩ | hocc | hrest))
          · exact Or.inl (Or.inl hx)
          · cases heq
          · exact Or.inl (Or.inr hocc)
          · exact Or.inr hrest
      | obj fields2 =>
        rw [show collectRefsFields (("$ref", JValue.obj fields2) :: rest) acc =
            collectRefsFields rest (collectRefsAux (JValue.obj fields2) acc) from rfl]
        rw [collectRefsFields_mem rest (collectRefsAux (JValue.obj fields2) acc) x]
        rw [collectRefsAux_mem (JValue.obj fields2) acc x]
        constructor
        · rintro ((hx | hocc) | hrest)
          · exact Or.inl hx
          · exact Or.inr (Or.inr (Or.inl hocc))
          · exact Or.inr (Or.inr (Or.inr hrest))
        · rintro (hx | (⟨_, heq⟩ | hocc | hrest))
          · exact Or.inl (Or.inl hx)
          · cases heq
          · exact Or.inl (Or.inr hocc)
          · exact Or.inr hrest
    · rw [show collectRefsFields ((k, v) :: rest) acc =
          collectRefsFields rest (collectRefsAux v
            (if k = "$ref" then
              match v with
              | .str r => insertS acc r
              | _ => acc
            else acc)) from rfl]
      rw [if_neg hk]
      rw [collectRefsFields_mem rest _ x, collectRefsAux_mem v _ x]
      constructor
      · rintro ((hx | hocc) | hrest)
        · exact Or.inl hx
        · exact Or.inr (Or.inr (Or.inl hocc))
        · exact Or.inr (Or.inr (Or.inr hrest))
      · rintro (hx | (⟨hkk, _⟩ | hocc | hrest))
        · exact Or.inl (Or.inl hx)
        · exact absurd hkk hk
        · exact Or.inl (Or.inr hocc)
        · exact Or.inr hrest
end

mutual
/-- The collector's walk of one value preserves freedom from duplicates. -/
theorem collectRefsAux_nodup : ∀ (v : JValue) (acc : List String), acc.Nodup →
    (collectRefsAux v acc).Nodup
  | .obj fields, acc, h => by
    rw [show collectRefsAux (.obj fields) acc = collectRefsFields fields acc from rfl]
    exact collectRefsFields_nodup fields acc h
  | .arr elems, acc, h => by
    rw [show collectRefsAux (.arr elems) acc = collectRefsElems elems acc from rfl]
    exact collectRefsElems_nodup elems acc h
  | .str s, acc, h => h
  | .num n, acc, h => h
  | .bool b, acc, h => h
  | .null, acc, h => h

/-- The collector's walk of a sequence preserves freedom from duplicates. -/
theorem collectRefsElems_nodup : ∀ (elems : List JValue) (acc : List String), acc.Nodup →
    (collectRefsElems elems acc).Nodup
  | [], acc, h => h
  | v :: rest, acc, h => by
    rw [show collectRefsElems (v :: rest) acc =
        collectRefsElems rest (collectRefsAux v acc) from rfl]
    exact collectRefsElems_nodup rest (collectRefsAux v acc) (collectRefsAux_nodup v acc h)

/-- The collector's walk of a mapping preserves freedom from duplicates. -/
theorem collectRefsFields_nodup :
    ∀ (fields : List (String × JValue)) (acc : List String), acc.Nodup →
      (collectRefsFields fields acc).Nodup
  | [], acc, h => h
  | (k, v) :: rest, acc, h => by
    rw [show collectRefsFields ((k, v) :: rest) acc =
        collectRefsFields rest (collectRefsAux v
          (if k = "$ref" then
            match v with
            | .str r => insertS acc r
            | _ => acc
          else acc)) from rfl]
    refine collectRefsFields_nodup rest _ (collectRefsAux_nodup v _ ?_)
    by_cases hk : k = "$ref"
    · rw [if_pos hk]
      cases v with
      | str r => exact insertS_nodup acc r h
      | num n => exact h
      | bool b => exact h
      | null => exact h
      | arr elems => exact h
      | obj fields2 => exact h
    · rw [if_neg hk]
      exact h
end

/-- C9: `collectRefs` returns the set of all reference pointer strings
occurring anywhere in a schema, with duplicates collapsed: its output is
duplicate-free, membership is exactly occurrence of the pointer in the
schema, the `oneOf` sample yields exactly the two references, and a
schema with no reference markers yields the empty set. -/
theorem collectRefs_all_refs :
    (∀ s : JValue, (collectRefs s).Nodup) ∧
    (∀ (s : JValue) (r : String), r ∈ collectRefs s ↔ RefOccurs r s) ∧
    collectRefs oneOfRefSchema = ["#/components/schemas/A", "#/components/schemas/B"] ∧
    collectRefs (.obj [("type", .str "string")]) = [] := by
  refine ⟨?_, ?_, rfl, rfl⟩
  · intro s
    exact collectRefsAux_nodup s [] List.nodup_nil
  · intro s r
    have h := collectRefsAux_mem s [] r
    simpa using h
